import Mathlib

/-!
# Verification of the kuzco copy-on-write transactional tree core

Shallow embedding of `src/code/kuzco/Kuzco.hpp` (namespace `kuzco`).

The heap of reference-counted blocks (`impl::Data` payloads) is modelled as an
association list from block ids to `(value, refcount)`.  Values of the tree
types `T` instantiating the templates are modelled by `Val`: either a plain
integer, or a struct holding two `Member` fields (each field stored as the
block id of that member's `m_data` payload — the `Member` object itself is the
slot inside its enclosing block's value).

The implementation file `Kuzco.cpp` (definitions of `impl::Member::deep`,
`impl::Member::detached`, `impl::Member::detachWith`,
`impl::RootObject::{beginTransaction, endTransaction, detachedRoot, openEdit,
isOpenEdit}` and the thread-local transaction-depth counter) is not part of
the sources; those operations are modelled from the spec, each marked
`Modelled from the spec:` in its doc comment.  The templated code of
`Kuzco.hpp` (`Member`/`NewObject`/`RootObject<T>`) is embedded from the
source.

Recursion through the heap (a struct value copy invokes the copy of its
`Member` fields, which copies further struct values) is bounded by an
explicit `fuel` parameter so that every operation is a total, executable
function; `fuel` only needs to exceed the depth of the tree involved.
-/

namespace Kuzco

/-- A value held in one reference-counted block.  `vint n` models a scalar
payload; `vpair a b` models a struct `T { Member<U> a; Member<U> b; }`,
where the two fields are recorded by the block ids of the members'
`m_data.payload` blocks. -/
inductive Val where
  | vint (n : Int)
  | vpair (a b : Nat)
deriving DecidableEq, Repr

/-- The heap of reference-counted blocks: `nextId` is the next fresh address,
`blocks` maps a block id to its stored value and reference count. -/
structure Store where
  nextId : Nat
  blocks : List (Nat × Val × Nat)
deriving DecidableEq, Repr

namespace Store

/-- Look up a block: its value and reference count. -/
def find (st : Store) (i : Nat) : Option (Val × Nat) :=
  (st.blocks.find? (fun b => b.1 = i)).map (fun b => b.2)

/-- The value stored in block `i` (what dereferencing `qdata` reads). -/
def valAt (st : Store) (i : Nat) : Option Val :=
  (st.find i).map Prod.fst

/-- Embeds `impl::Data::construct<T>`: allocate a fresh block holding `v`
with reference count 1 and return its id (`Kuzco.hpp` lines 24–31). -/
def construct (st : Store) (v : Val) : Nat × Store :=
  (st.nextId, ⟨st.nextId + 1, (st.nextId, v, 1) :: st.blocks⟩)

/-- Apply `f` to the (value, refcount) entry of block `i`, if present. -/
def mapBlock (st : Store) (i : Nat) (f : Val × Nat → Val × Nat) : Store :=
  ⟨st.nextId, st.blocks.map (fun b => if b.1 = i then (b.1, f b.2) else b)⟩

/-- Overwrite the value stored in block `i` in place (a write through the
quick-access pointer `qdata`). -/
def setVal (st : Store) (i : Nat) (v : Val) : Store :=
  st.mapBlock i (fun p => (v, p.2))

/-- Copying a `shared_ptr` handle to block `i`: reference count increment. -/
def incref (st : Store) (i : Nat) : Store :=
  st.mapBlock i (fun p => (p.1, p.2 + 1))

/-- Releasing a `shared_ptr` handle to block `i`: reference count decrement.
(Deallocation at count zero is not observed by any claim and is not
modelled; the entry merely keeps count 0.) -/
def decref (st : Store) (i : Nat) : Store :=
  st.mapBlock i (fun p => (p.1, p.2 - 1))

/-- Well-formedness: block ids are unique and below the allocation cursor. -/
def WF (st : Store) : Prop :=
  (st.blocks.map (fun b => b.1)).Nodup ∧ ∀ b ∈ st.blocks, b.1 < st.nextId

instance : DecidablePred WF := fun st => by
  unfold WF
  infer_instance

end Store

/-- The per-thread / per-root context a `Member` operation can observe:
the block heap, the calling thread's transaction-depth counter, and the
enclosing root's open-edits registry `m_openEdits` (kept as the list of
registered block ids; each entry holds one reference). -/
structure KState where
  store : Store
  depth : Nat
  openEdits : List Nat
deriving DecidableEq, Repr

namespace KState

/-- Modelled from the spec: `impl::Member::deep` — "the deep vs shallow copy
decision is governed by a per-thread transaction-depth counter"; deep when
the counter is zero. -/
def deep (s : KState) : Bool :=
  s.depth = 0

/-- Modelled from the spec: `impl::RootObject::isOpenEdit` — membership of the
Storage Handle's identity (block address) in the open-edits registry,
searched linearly. -/
def isOpenEdit (s : KState) (i : Nat) : Bool :=
  s.openEdits.contains i

/-- Modelled from the spec: `impl::Member::detached` — "if we're working on
new objects we're detached; if we're inside a transaction a search is
performed" (`Kuzco.hpp` lines 71–73): detached when outside every
transaction, otherwise when the block is already registered as an open
edit. -/
def detached (s : KState) (i : Nat) : Bool :=
  s.deep || s.isOpenEdit i

/-- Modelled from the spec: `impl::RootObject::openEdit` — insert the handle's
identity into the registry; the stored `Data` copy holds a reference. -/
def openEdit (s : KState) (i : Nat) : KState :=
  ⟨s.store.incref i, s.depth, s.openEdits ++ [i]⟩

/-- Modelled from the spec: `impl::Member::detachWith` — replace the member's
data (`old`) with the freshly constructed data `nw` (releasing the old
handle) and register the new handle with the enclosing transaction's
open-edits registry.  Returns the member's new data. -/
def detachWith (s : KState) (old nw : Nat) : Nat × KState :=
  (nw, { (s.openEdit nw) with store := (s.openEdit nw).store.decref old })

end KState

/-- Embeds `Member<T>::Member(const Member& other)` (`Kuzco.hpp` lines
158–162): `if (deep()) m_data = impl::Data::construct<T>(*other.get());
else m_data = other.m_data;`.  The argument is the source member's data
block id; the result is the new member's data block id.  In the deep
branch, the inline `match` is the copy construction of the value of type
`T` performed by `impl::Data::construct<T>(*other.get())`: a scalar copies
bitwise; a struct copy-constructs each `Member` field in declaration
order, recursively applying this same deep/shallow rule (see `copyVal`
below for the same copy packaged as a function). -/
def memberCopy : Nat → KState → Nat → Option (Nat × KState)
  | 0, _, _ => none
  | fuel + 1, s, src =>
    if s.deep then do
      let (v, _) ← s.store.find src
      let (v', s₁) ←
        (match v with
          | Val.vint n => some (Val.vint n, s)
          | Val.vpair a b => do
            let (a', t₁) ← memberCopy fuel s a
            let (b', t₂) ← memberCopy fuel t₁ b
            some (Val.vpair a' b', t₂))
      let (i, st) := s₁.store.construct v'
      some (i, { s₁ with store := st })
    else
      some (src, { s with store := s.store.incref src })

/-- Copy construction of a value of type `T` (what
`impl::Data::construct<T>(*src)` does to build the new block's contents):
a scalar copies bitwise; a struct copy-constructs each `Member` field,
which applies the deep/shallow rule (`Member(const Member&)`). -/
def copyVal (fuel : Nat) (s : KState) (v : Val) : Option (Val × KState) :=
  match v with
  | Val.vint n => some (Val.vint n, s)
  | Val.vpair a b => do
    let (a', s₁) ← memberCopy fuel s a
    let (b', s₂) ← memberCopy fuel s₁ b
    some (Val.vpair a' b', s₂)

/-- Embeds `Member<T>::operator=(const Member& other)` (`Kuzco.hpp` lines
164–169): `if (detached()) *qget() = *other.get(); else
detachWith(impl::Data::construct<T>(*other.get()));`.  In the detached
branch, the inline `match` is the copy assignment of the source value into
the object held in the target's block: a scalar assigns bitwise; a struct
runs `Member::operator=(const Member&)` field by field (see `assignVal`
below for the same assignment packaged as a function). -/
def memberAssignFrom : Nat → KState → Nat → Nat → Option (Nat × KState)
  | 0, _, _, _ => none
  | fuel + 1, s, tgt, src => do
    let (sv, _) ← s.store.find src
    if s.detached tgt then do
      let (tv, _) ← s.store.find tgt
      let (tv', s₁) ←
        (match tv, sv with
          | Val.vint _, Val.vint n => some (Val.vint n, s)
          | Val.vpair a b, Val.vpair a' b' => do
            let (a₂, t₁) ← memberAssignFrom fuel s a a'
            let (b₂, t₂) ← memberAssignFrom fuel t₁ b b'
            some (Val.vpair a₂ b₂, t₂)
          | _, _ => none)
      some (tgt, { s₁ with store := s₁.store.setVal tgt tv' })
    else do
      let (v', s₁) ← copyVal fuel s sv
      let (nb, st) := s₁.store.construct v'
      some (KState.detachWith { s₁ with store := st } tgt nb)

/-- Copy assignment of a value of type `T` into an object held in place
(`*qget() = *other.get()`): a scalar assigns bitwise; a struct runs
`Member::operator=(const Member&)` field by field.  Returns the target
object's updated value. -/
def assignVal (fuel : Nat) (s : KState) (tgtVal srcVal : Val) :
    Option (Val × KState) :=
  match tgtVal, srcVal with
  | Val.vint _, Val.vint n => some (Val.vint n, s)
  | Val.vpair a b, Val.vpair a' b' => do
    let (a₂, s₁) ← memberAssignFrom fuel s a a'
    let (b₂, s₂) ← memberAssignFrom fuel s₁ b b'
    some (Val.vpair a₂ b₂, s₂)
  | _, _ => none

/-- Embeds `Member<T>::Member(Args&&...)` (`Kuzco.hpp` lines 152–156):
construct the value from the arguments and allocate a fresh block for it. -/
def memberNew (s : KState) (v : Val) : Nat × KState :=
  let (i, st) := s.store.construct v
  (i, { s with store := st })

/-- Embeds non-const `Member<T>::get()` (`Kuzco.hpp` lines 190–194): `if
(!detached()) detachWith(impl::Data::construct<T>(*r().get())); return
qget();`.  Returns the member's data block id after the call — the block
the returned mutable pointer points into — together with the new state. -/
def memberGet (fuel : Nat) (s : KState) (m : Nat) : Option (Nat × KState) :=
  if s.detached m then
    some (m, s)
  else do
    let (v, _) ← s.store.find m
    let (v', s₁) ← copyVal fuel s v
    let (nb, st) := s₁.store.construct v'
    some (KState.detachWith { s₁ with store := st } m nb)

/-- Embeds `Member<T>::operator=(U&& u)` (`Kuzco.hpp` lines 177–183): `if
(detached()) *qget() = std::forward<U>(u); else
detachWith(impl::Data::construct<T>(std::forward<U>(u)));`.  The argument
`u` is the assigned value. -/
def memberAssignU (fuel : Nat) (s : KState) (tgt : Nat) (u : Val) :
    Option (Nat × KState) :=
  if s.detached tgt then do
    let (tv, _) ← s.store.find tgt
    let (tv', s₁) ← assignVal fuel s tv u
    some (tgt, { s₁ with store := s₁.store.setVal tgt tv' })
  else do
    let (v', s₁) ← copyVal fuel s u
    let (nb, st) := s₁.store.construct v'
    some (KState.detachWith { s₁ with store := st } tgt nb)

/-- Embeds `NewObject<T>(Args&&...)` (`Kuzco.hpp` lines 125–129): constructs
the value from the arguments and allocates a fresh block for it
(`setData(impl::Data::construct<T>(...))`).  For a struct value, its
`Member` fields were themselves constructed from arguments first (each
allocating its own fresh block); the caller builds `v` from the resulting
ids. -/
def newObject (s : KState) (v : Val) : Nat × KState :=
  let (i, st) := s.store.construct v
  (i, { s with store := st })

/-- The state of one `RootObject<T>` aside from its registry: `m_root.m_data`
(the root `Member`'s block) and `m_detachedRoot` (the published committed
snapshot handle). -/
structure RootData where
  rootData : Nat
  detachedRoot : Nat
deriving DecidableEq, Repr

/-- Modelled from the spec: `impl::RootObject::RootObject(NewObject&&)` —
the root is "created from a Fresh Value (becomes the initial committed
snapshot and initial root Node, both referencing the same freshly
allocated block)": the root member takes the new object's data by move and
`m_detachedRoot` aliases the same payload (one extra reference). -/
def rootNew (s : KState) (objData : Nat) : RootData × KState :=
  (⟨objData, objData⟩, { s with store := s.store.incref objData })

/-- Embeds `RootObject<T>::beginTransaction` (`Kuzco.hpp` lines 216–221) on
top of the spec-modelled `impl::RootObject::beginTransaction` (mutex
acquisition not modelled; the transaction-depth counter is incremented
first, so the root's value is copy-constructed under the shallow rule).
Then `m_root.detachWith(impl::Data::construct<T>(*qdata))` and return of
the mutable pointer into the root's (new) block, whose id is the first
component of the result. -/
def beginTransaction (fuel : Nat) (s : KState) (r : RootData) :
    Option (Nat × RootData × KState) := do
  let s₁ : KState := { s with depth := s.depth + 1 }
  let (v, _) ← s₁.store.find r.rootData
  let (v', s₂) ← copyVal fuel s₁ v
  let (nb, st) := s₂.store.construct v'
  let (m', s₃) := KState.detachWith { s₂ with store := st } r.rootData nb
  some (m', { r with rootData := m' }, s₃)

/-- Modelled from the spec: `impl::RootObject::endTransaction` — "atomically
replaces the published `committed` snapshot with a new reference-counted
handle that aliases the root Node's Storage Handle; clears the open-edits
registry; decrements the transaction-depth counter; releases the
mutual-exclusion lock" (the lock is not modelled).  Replacing the
committed handle releases the old one; clearing the registry releases each
entry's reference. -/
def endTransaction (s : KState) (r : RootData) : RootData × KState :=
  let st := (s.store.decref r.detachedRoot).incref r.rootData
  let st := s.openEdits.foldl (fun acc i => acc.decref i) st
  (⟨r.rootData, r.rootData⟩, ⟨st, s.depth - 1, []⟩)

/-- Embeds `RootObject<T>::detachedPayload` (`Kuzco.hpp` line 225) over the
spec-modelled `impl::RootObject::detachedRoot` — "returns the current
`committed` handle (an aliasing reference-count increment) without
acquiring the transaction lock".  Returns the snapshot's block id. -/
def detachedPayload (s : KState) (r : RootData) : Nat × KState :=
  (r.detachedRoot, { s with store := s.store.incref r.detachedRoot })

/-- A fully dereferenced tree value: what application code sees when it reads
through all `Member` indirections. -/
inductive PVal where
  | pint (n : Int)
  | ppair (a b : PVal)
deriving DecidableEq, Repr

/-- Read the tree value rooted at stored value `v`, following `Member` block
ids through the heap (`fuel` bounds the depth).  Reference counts are not
observed. -/
def readVal : Nat → Store → Val → Option PVal
  | _, _, Val.vint n => some (PVal.pint n)
  | 0, _, Val.vpair _ _ => none
  | fuel + 1, st, Val.vpair a b => do
    let va ← st.valAt a
    let pa ← readVal fuel st va
    let vb ← st.valAt b
    let pb ← readVal fuel st vb
    some (PVal.ppair pa pb)

/-- Read the tree value stored in block `i`. -/
def readBlock (fuel : Nat) (st : Store) (i : Nat) : Option PVal := do
  let v ← st.valAt i
  readVal fuel st v

/-- The empty heap, outside any transaction, with an empty registry. -/
def emptyState : KState :=
  ⟨⟨0, []⟩, 0, []⟩

/-- Deep-phase construction of the concrete two-member tree `{a: va, b: vb}`:
`Member` fields built first from arguments (blocks 0 and 1), then the
enclosing `NewObject` (block 2). -/
def scenarioBuild (va vb : Int) : Nat × KState :=
  let (a₀, s₁) := memberNew emptyState (Val.vint va)
  let (b₀, s₂) := memberNew s₁ (Val.vint vb)
  newObject s₂ (Val.vpair a₀ b₀)

/-- Hand the freshly built tree to a `RootObject`. -/
def scenarioRoot (va vb : Int) : RootData × KState :=
  let (obj, s) := scenarioBuild va vb
  rootNew s obj

/-- The in-transaction phase of the scenario: given the pointer returned by
`beginTransaction` together with the root data and state, write only
member `a` (`root->a = w`) through `Member::operator=(U&&)`, store the
member's updated data back into the root block (the member object lives
inside that block), and commit. -/
def scenarioMutate (w : Int) (x : Nat × RootData × KState) :
    Option (RootData × KState) := do
  let rv ← x.2.2.store.valAt x.1
  match rv with
  | Val.vpair a b => do
    let (a', s₂) ← memberAssignU 4 x.2.2 a (Val.vint w)
    some (endTransaction
      { s₂ with store := s₂.store.setVal x.1 (Val.vpair a' b) } x.2.1)
  | Val.vint _ => none

/-- One full transaction on the scenario root that writes only member `a`
and commits: begin, then `scenarioMutate`. -/
def scenarioTx (va vb w : Int) : Option (RootData × KState) :=
  (let (r₀, s₀) := scenarioRoot va vb
   beginTransaction 4 s₀ r₀).bind (scenarioMutate w)

/-- A configuration of one `RootObject` driven by application code: the
shared context, the root's handles, and whether its transaction is open. -/
structure Conf where
  s : KState
  r : RootData
  inTx : Bool
deriving DecidableEq, Repr

/-- Modelled from the spec: the API-level steps application code can take on
a root and its tree.  The mutating member operations (`mget`, `massign`,
`massignU`, `fieldWrite`) require an open transaction — the spec makes
member mutation outside a transaction undefined with respect to the
sharing protocol — while member construction and copy are allowed
anywhere. -/
inductive Step : Conf → Conf → Prop
  | beginTx (c : Conf) (fuel ptr : Nat) (r' : RootData) (s' : KState)
      (h : c.inTx = false)
      (hb : beginTransaction fuel c.s c.r = some (ptr, r', s')) :
      Step c ⟨s', r', true⟩
  | endTx (c : Conf) (h : c.inTx = true) :
      Step c ⟨(endTransaction c.s c.r).2, (endTransaction c.s c.r).1, false⟩
  | mget (c : Conf) (fuel m i : Nat) (s' : KState) (h : c.inTx = true)
      (hg : memberGet fuel c.s m = some (i, s')) : Step c ⟨s', c.r, true⟩
  | massign (c : Conf) (fuel t src i : Nat) (s' : KState) (h : c.inTx = true)
      (ha : memberAssignFrom fuel c.s t src = some (i, s')) :
      Step c ⟨s', c.r, true⟩
  | massignU (c : Conf) (fuel t i : Nat) (u : Val) (s' : KState)
      (h : c.inTx = true)
      (ha : memberAssignU fuel c.s t u = some (i, s')) : Step c ⟨s', c.r, true⟩
  | fieldWrite (c : Conf) (i : Nat) (v : Val) (h : c.inTx = true) :
      Step c ⟨{ c.s with store := c.s.store.setVal i v }, c.r, true⟩
  | mnew (c : Conf) (v : Val) :
      Step c ⟨(memberNew c.s v).2, c.r, c.inTx⟩
  | mcopy (c : Conf) (fuel src i : Nat) (s' : KState)
      (hc : memberCopy fuel c.s src = some (i, s')) :
      Step c ⟨s', c.r, c.inTx⟩

/-- The configuration right after constructing a `RootObject` from a
`NewObject`, with no transaction open. -/
def initConf (s : KState) (objData : Nat) : Conf :=
  ⟨(rootNew s objData).2, (rootNew s objData).1, false⟩

/-- A concrete trace reaching a state where a `Member<T>` with struct-valued
`T` is detached (its block is in the open-edits registry) but the member
fields inside its block still alias pre-transaction blocks: build
`outer { x: {1, 2}, y: 9 }` and a separate source member `{7, 8}` outside
any transaction, hand `outer` to a root, begin a transaction (root copy is
block 8), then take mutable access to field `x` (detaching it as block 9).
Returns (detached target member, source member, state). -/
def cexDetachedNested : Option (Nat × Nat × KState) := do
  let (a₀, s₁) := memberNew emptyState (Val.vint 1)
  let (b₀, s₂) := memberNew s₁ (Val.vint 2)
  let (x₀, s₃) := memberNew s₂ (Val.vpair a₀ b₀)
  let (y₀, s₄) := memberNew s₃ (Val.vint 9)
  let (obj, s₅) := newObject s₄ (Val.vpair x₀ y₀)
  let (c₀, s₆) := memberNew s₅ (Val.vint 7)
  let (d₀, s₇) := memberNew s₆ (Val.vint 8)
  let (srcm, s₈) := memberNew s₇ (Val.vpair c₀ d₀)
  let (r₀, s₉) := rootNew s₈ obj
  let (ptr, _r₁, s₁₀) ← beginTransaction 8 s₉ r₀
  let rv ← s₁₀.store.valAt ptr
  match rv with
  | Val.vpair x y => do
    let (x', s₁₁) ← memberGet 8 s₁₀ x
    let s₁₂ := { s₁₁ with store := s₁₁.store.setVal ptr (Val.vpair x' y) }
    some (x', srcm, s₁₂)
  | Val.vint _ => none

/-- A concrete trace for mutable access to a member constructed inside an
active transaction: an `int` root is handed to a root object, a
transaction is begun (root copy is block 1), then a fresh member is
constructed from arguments (block 2).  Returns (fresh member, state). -/
def cexFreshInTx : Option (Nat × KState) := do
  let (obj, s₁) := newObject emptyState (Val.vint 1)
  let (r₀, s₂) := rootNew s₁ obj
  let (_ptr, _r₁, s₃) ← beginTransaction 4 s₂ r₀
  some (memberNew s₃ (Val.vint 7))

end Kuzco

namespace Kuzco

namespace Store

theorem nextId_mapBlock (st : Store) (i : Nat) (f : Val × Nat → Val × Nat) :
    (st.mapBlock i f).nextId = st.nextId := rfl

theorem find_mapBlock (st : Store) (i : Nat) (f : Val × Nat → Val × Nat) (j : Nat) :
    (st.mapBlock i f).find j = (st.find j).map (fun p => if j = i then f p else p) := by
  unfold Store.find Store.mapBlock
  induction st.blocks with
  | nil => rfl
  | cons b l ih =>
    by_cases hbj : b.1 = j
    · by_cases hbi : b.1 = i <;> simp [List.find?_cons, hbj, hbi, hbj ▸ hbi]
    · by_cases hbi : b.1 = i <;> simp [List.find?_cons, hbj, hbi] <;> simp_all

theorem find_incref (st : Store) (i j : Nat) :
    (st.incref i).find j
      = (st.find j).map (fun p => if j = i then (p.1, p.2 + 1) else p) :=
  find_mapBlock ..

theorem find_decref (st : Store) (i j : Nat) :
    (st.decref i).find j
      = (st.find j).map (fun p => if j = i then (p.1, p.2 - 1) else p) :=
  find_mapBlock ..

theorem find_setVal (st : Store) (i : Nat) (v : Val) (j : Nat) :
    (st.setVal i v).find j
      = (st.find j).map (fun p => if j = i then (v, p.2) else p) :=
  find_mapBlock ..

theorem valAt_mapBlock_of_fst (st : Store) (i : Nat) (f : Val × Nat → Val × Nat)
    (hf : ∀ p, (f p).1 = p.1) (j : Nat) :
    (st.mapBlock i f).valAt j = st.valAt j := by
  unfold Store.valAt
  rw [find_mapBlock]
  cases st.find j with
  | none => rfl
  | some p => by_cases h : j = i <;> simp [h, hf]

theorem valAt_incref (st : Store) (i j : Nat) :
    (st.incref i).valAt j = st.valAt j :=
  valAt_mapBlock_of_fst st i (fun p => (p.1, p.2 + 1)) (fun _ => rfl) j

theorem valAt_decref (st : Store) (i j : Nat) :
    (st.decref i).valAt j = st.valAt j :=
  valAt_mapBlock_of_fst st i (fun p => (p.1, p.2 - 1)) (fun _ => rfl) j

theorem find_construct (st : Store) (v : Val) (j : Nat) :
    (st.construct v).2.find j
      = if j = st.nextId then some (v, 1) else st.find j := by
  unfold Store.find Store.construct
  by_cases h : j = st.nextId
  · simp [List.find?_cons, h]
  · have h' : ¬ st.nextId = j := fun he => h he.symm
    simp [List.find?_cons, h, h']

theorem lt_nextId_of_find (st : Store) (j : Nat) (x : Val × Nat) (hwf : st.WF)
    (h : st.find j = some x) : j < st.nextId := by
  unfold Store.find at h
  cases hf : st.blocks.find? (fun b => b.1 = j) with
  | none => simp [hf] at h
  | some b =>
    have hb : b.1 = j := by simpa using List.find?_some hf
    have hmem := List.mem_of_find?_eq_some hf
    exact hb ▸ hwf.2 b hmem

theorem find_eq_none_of_le (st : Store) (j : Nat) (hwf : st.WF)
    (h : st.nextId ≤ j) : st.find j = none := by
  cases hf : st.find j with
  | none => rfl
  | some x => exact absurd (lt_nextId_of_find st j x hwf hf) (Nat.not_lt.mpr h)

theorem WF_mapBlock (st : Store) (i : Nat) (f : Val × Nat → Val × Nat)
    (hwf : st.WF) : (st.mapBlock i f).WF := by
  obtain ⟨hnd, hbd⟩ := hwf
  refine ⟨?_, ?_⟩
  · have hkeys : (st.mapBlock i f).blocks.map (fun b => b.1)
        = st.blocks.map (fun b => b.1) := by
      show (st.blocks.map _).map _ = _
      rw [List.map_map]
      apply List.map_congr_left
      intro b _
      by_cases h : b.1 = i <;> simp [h]
    rw [hkeys]; exact hnd
  · intro b hb
    obtain ⟨c, hc, hcb⟩ := List.mem_map.mp hb
    have hkey : b.1 = c.1 := by
      subst hcb
      by_cases h : c.1 = i <;> simp [h]
    show b.1 < st.nextId
    rw [hkey]; exact hbd c hc

theorem WF_incref (st : Store) (i : Nat) (hwf : st.WF) : (st.incref i).WF :=
  WF_mapBlock st i _ hwf

theorem WF_decref (st : Store) (i : Nat) (hwf : st.WF) : (st.decref i).WF :=
  WF_mapBlock st i _ hwf

theorem WF_setVal (st : Store) (i : Nat) (v : Val) (hwf : st.WF) :
    (st.setVal i v).WF :=
  WF_mapBlock st i _ hwf

theorem WF_construct (st : Store) (v : Val) (hwf : st.WF) :
    (st.construct v).2.WF := by
  obtain ⟨hnd, hbd⟩ := hwf
  refine ⟨?_, ?_⟩
  · show ((st.nextId, v, 1) :: st.blocks).map (fun b => b.1) |>.Nodup
    simp only [List.map_cons, List.nodup_cons]
    refine ⟨?_, hnd⟩
    intro hmem
    obtain ⟨c, hc, hkey⟩ := List.mem_map.mp hmem
    exact absurd (hkey ▸ hbd c hc) (Nat.lt_irrefl _)
  · intro b hb
    rcases List.mem_cons.mp hb with h | h
    · subst h; exact Nat.lt_succ_self _
    · exact Nat.lt_succ_of_lt (hbd b h)

end Store

end Kuzco

namespace Kuzco

/-- Restatement of `readBlock` through explicit `Option.bind`. -/
theorem readBlock_eq (k : Nat) (st : Store) (i : Nat) :
    readBlock k st i = (st.valAt i).bind (fun v => readVal k st v) := by
  cases h : st.valAt i <;> simp [readBlock, h]

/-- The pair case of `readVal` phrased through `readBlock`. -/
theorem readVal_succ_pair (k : Nat) (st : Store) (a b : Nat) :
    readVal (k + 1) st (Val.vpair a b)
      = (readBlock k st a).bind (fun pa =>
          (readBlock k st b).bind (fun pb => some (PVal.ppair pa pb))) := by
  cases hva : st.valAt a with
  | none => simp [readVal, readBlock, hva]
  | some va =>
    cases hpa : readVal k st va with
    | none => simp [readVal, readBlock, hva, hpa]
    | some pa =>
      cases hvb : st.valAt b with
      | none => simp [readVal, readBlock, hva, hpa, hvb]
      | some vb => simp [readVal, readBlock, hva, hpa, hvb]

theorem readVal_mono (k : Nat) (st st' : Store)
    (hm : ∀ j x, st.valAt j = some x → st'.valAt j = some x) :
    ∀ v p, readVal k st v = some p → readVal k st' v = some p := by
  induction k with
  | zero =>
    intro v p h
    cases v with
    | vint n => exact h
    | vpair a b => simp [readVal] at h
  | succ k ih =>
    intro v p h
    cases v with
    | vint n => exact h
    | vpair a b =>
      rw [readVal_succ_pair] at h ⊢
      cases hva : st.valAt a with
      | none => simp [readBlock, hva] at h
      | some va =>
        cases hpa : readVal k st va with
        | none => simp [readBlock, hva, hpa] at h
        | some pa =>
          cases hvb : st.valAt b with
          | none => simp [readBlock, hva, hpa, hvb] at h
          | some vb =>
            cases hpb : readVal k st vb with
            | none => simp [readBlock, hva, hpa, hvb, hpb] at h
            | some pb =>
              simp [readBlock, hva, hpa, hvb, hpb] at h
              simp [readBlock, hm a va hva, hm b vb hvb,
                    ih va pa hpa, ih vb pb hpb, h]

theorem readBlock_mono (k : Nat) (st st' : Store) (i : Nat)
    (hm : ∀ j x, st.valAt j = some x → st'.valAt j = some x)
    (p : PVal) (h : readBlock k st i = some p) : readBlock k st' i = some p := by
  unfold readBlock at h ⊢
  cases hv : st.valAt i with
  | none => simp [hv] at h
  | some v =>
    simp [hv] at h
    simp [hm i v hv]
    exact readVal_mono k st st' hm v p h

theorem readVal_congr (k : Nat) (st st' : Store)
    (hm : ∀ j, st'.valAt j = st.valAt j) :
    ∀ v, readVal k st' v = readVal k st v := by
  induction k with
  | zero => intro v; cases v <;> rfl
  | succ k ih =>
    intro v
    cases v with
    | vint n => rfl
    | vpair a b =>
      rw [readVal_succ_pair, readVal_succ_pair]
      unfold readBlock
      rw [hm a, hm b]
      cases hva : st.valAt a with
      | none => rfl
      | some va =>
        simp only [Option.bind_eq_bind, Option.some_bind']
        rw [ih va]
        cases hpa : readVal k st va with
        | none => rfl
        | some pa =>
          simp only [Option.some_bind']
          cases hvb : st.valAt b with
          | none => rfl
          | some vb =>
            simp only [Option.some_bind']
            rw [ih vb]

end Kuzco

namespace Kuzco

theorem find_construct_pres (st : Store) (v : Val) (j : Nat) (x : Val × Nat)
    (hwf : st.WF) (h : st.find j = some x) : (st.construct v).2.find j = some x := by
  rw [Store.find_construct]
  have hj := Store.lt_nextId_of_find st j x hwf h
  simp [Nat.ne_of_lt hj, h]

theorem valAt_pres_of_find_pres (st st' : Store)
    (h : ∀ j x, st.find j = some x → st'.find j = some x) :
    ∀ j x, st.valAt j = some x → st'.valAt j = some x := by
  intro j x hx
  unfold Store.valAt at hx ⊢
  cases hf : st.find j with
  | none => simp [hf] at hx
  | some y =>
    simp [hf] at hx
    simp [h j y hf, hx]

theorem memberCopy_shallow (fuel : Nat) (s : KState) (src : Nat)
    (hd : s.deep = false) :
    memberCopy (fuel + 1) s src
      = some (src, { s with store := s.store.incref src }) := by
  simp [memberCopy, hd]

theorem copyVal_shallow (fuel : Nat) (s : KState) (v : Val)
    (hd : s.deep = false) :
    ∃ st', copyVal (fuel + 1) s v = some (v, { s with store := st' })
      ∧ st'.nextId = s.store.nextId
      ∧ ∀ j, st'.valAt j = s.store.valAt j := by
  cases v with
  | vint n => exact ⟨s.store, rfl, rfl, fun _ => rfl⟩
  | vpair a b =>
    refine ⟨(s.store.incref a).incref b, ?_, rfl, ?_⟩
    · have h₁ := memberCopy_shallow fuel s a hd
      have h₂ := memberCopy_shallow fuel { s with store := s.store.incref a } b hd
      simp [copyVal, h₁, h₂]
    · intro j
      rw [Store.valAt_incref, Store.valAt_incref]

/-- Unfolding of `copyVal` on a struct value, in explicit `Option.bind` form. -/
theorem copyVal_pair (fuel : Nat) (s : KState) (a b : Nat) :
    copyVal fuel s (Val.vpair a b)
      = (memberCopy fuel s a).bind (fun p₁ =>
          (memberCopy fuel p₁.2 b).bind (fun p₂ =>
            some (Val.vpair p₁.1 p₂.1, p₂.2))) := by
  cases hma : memberCopy fuel s a with
  | none => simp [copyVal, hma]
  | some p₁ =>
    obtain ⟨a₁, t₁⟩ := p₁
    cases hmb : memberCopy fuel t₁ b with
    | none => simp [copyVal, hma, hmb]
    | some p₂ =>
      obtain ⟨b₁, t₂⟩ := p₂
      simp [copyVal, hma, hmb]

/-- Unfolding of `memberCopy` in the deep branch, in explicit `Option.bind`
form; the inline value-copy match is `copyVal`. -/
theorem memberCopy_succ_deep (fuel : Nat) (s : KState) (src : Nat)
    (hdeep : s.deep = true) :
    memberCopy (fuel + 1) s src
      = (s.store.find src).bind (fun vr =>
          (copyVal fuel s vr.1).bind (fun r =>
            some ((r.2.store.construct r.1).1,
              { r.2 with store := (r.2.store.construct r.1).2 }))) := by
  cases hfind : s.store.find src with
  | none => simp [memberCopy, hdeep, hfind]
  | some vr =>
    obtain ⟨v, rc⟩ := vr
    cases v with
    | vint n => simp [memberCopy, copyVal, hdeep, hfind]
    | vpair a b =>
      cases hma : memberCopy fuel s a with
      | none => simp [memberCopy, copyVal, hdeep, hfind, hma]
      | some p₁ =>
        obtain ⟨a₁, t₁⟩ := p₁
        cases hmb : memberCopy fuel t₁ b with
        | none => simp [memberCopy, copyVal, hdeep, hfind, hma, hmb]
        | some p₂ =>
          obtain ⟨b₁, t₂⟩ := p₂
          simp [memberCopy, copyVal, hdeep, hfind, hma, hmb]

theorem memberCopy_deep : ∀ (fuel : Nat) (s : KState) (src i : Nat) (s' : KState),
    s.depth = 0 → s.store.WF → memberCopy fuel s src = some (i, s') →
    s'.depth = 0 ∧ s'.openEdits = s.openEdits ∧ s'.store.WF ∧
    s.store.nextId ≤ s'.store.nextId ∧
    (∀ j x, s.store.find j = some x → s'.store.find j = some x) ∧
    s.store.nextId ≤ i ∧ i < s'.store.nextId ∧
    (∀ k p, readBlock k s.store src = some p → readBlock k s'.store i = some p) := by
  intro fuel
  induction fuel with
  | zero =>
    intro s src i s' _ _ h
    simp [memberCopy] at h
  | succ fuel ih =>
    intro s src i s' hd hwf h
    have hdeep : s.deep = true := by simp [KState.deep, hd]
    rw [memberCopy_succ_deep fuel s src hdeep] at h
    cases hfind : s.store.find src with
    | none => rw [hfind] at h; simp at h
    | some vr =>
      rw [hfind, Option.some_bind'] at h
      obtain ⟨v, rc⟩ := vr
      cases v with
      | vint n =>
        rw [show copyVal fuel s ((Val.vint n, rc).1) = some (Val.vint n, s) from rfl,
          Option.some_bind', Option.some.injEq, Prod.mk.injEq] at h
        obtain ⟨hi, hs'⟩ := h
        subst hi; subst hs'
        refine ⟨hd, rfl, Store.WF_construct s.store _ hwf, Nat.le_succ _,
          fun j x hx => find_construct_pres s.store _ j x hwf hx,
          Nat.le_refl _, Nat.lt_succ_self _, ?_⟩
        intro k p hp
        have hva : s.store.valAt src = some (Val.vint n) := by
          unfold Store.valAt; rw [hfind]; rfl
        have hpv : p = PVal.pint n := by
          unfold readBlock at hp
          rw [hva] at hp
          cases k <;> simpa [readVal] using hp.symm
        subst hpv
        have hvi : ((s.store.construct (Val.vint n)).2).valAt s.store.nextId
            = some (Val.vint n) := by
          unfold Store.valAt
          rw [Store.find_construct]
          simp
        have hc1 : (s.store.construct (Val.vint n)).1 = s.store.nextId := rfl
        cases k <;> simp [readBlock, readVal, hvi, hc1]
      | vpair a b =>
        rw [show ((Val.vpair a b, rc).1) = Val.vpair a b from rfl,
          copyVal_pair] at h
        cases hma : memberCopy fuel s a with
        | none => rw [hma] at h; simp at h
        | some p₁ =>
          obtain ⟨a', t₁⟩ := p₁
          rw [hma, Option.some_bind'] at h
          cases hmb : memberCopy fuel t₁ b with
          | none => rw [hmb] at h; simp at h
          | some p₂ =>
            obtain ⟨b', t₂⟩ := p₂
            rw [hmb, Option.some_bind', Option.some_bind',
              Option.some.injEq, Prod.mk.injEq] at h
            obtain ⟨hi, hs'⟩ := h
            subst hi; subst hs'
            obtain ⟨hdA, hoA, hwfA, hnA, hfA, hiA, hltA, hrA⟩ :=
              ih s a a' t₁ hd hwf hma
            obtain ⟨hdB, hoB, hwfB, hnB, hfB, hiB, hltB, hrB⟩ :=
              ih t₁ b b' t₂ hdA hwfA hmb
            refine ⟨hdB, hoB.trans hoA, Store.WF_construct t₂.store _ hwfB,
              ?_, ?_, ?_, ?_, ?_⟩
            · exact le_trans (le_trans hnA hnB) (Nat.le_succ _)
            · intro j x hx
              exact find_construct_pres t₂.store _ j x hwfB (hfB j x (hfA j x hx))
            · exact le_trans hnA hnB
            · exact Nat.lt_succ_self _
            · intro k p hp
              have hva : s.store.valAt src = some (Val.vpair a b) := by
                unfold Store.valAt; rw [hfind]; rfl
              replace hp : readVal k s.store (Val.vpair a b) = some p := by
                unfold readBlock at hp
                rw [hva] at hp
                simpa using hp
              cases k with
              | zero => simp [readVal] at hp
              | succ k =>
                rw [readVal_succ_pair] at hp
                cases hpa : readBlock k s.store a with
                | none => rw [hpa] at hp; simp at hp
                | some pa =>
                  rw [hpa, Option.some_bind'] at hp
                  cases hpb : readBlock k s.store b with
                  | none => rw [hpb] at hp; simp at hp
                  | some pb =>
                    rw [hpb, Option.some_bind', Option.some.injEq] at hp
                    subst hp
                    have hra' : readBlock k t₁.store a' = some pa := hrA k pa hpa
                    have hrb₁ : readBlock k t₁.store b = some pb :=
                      readBlock_mono k s.store t₁.store b
                        (valAt_pres_of_find_pres _ _ hfA) pb hpb
                    have hrb' : readBlock k t₂.store b' = some pb := hrB k pb hrb₁
                    have hra₂ : readBlock k t₂.store a' = some pa :=
                      readBlock_mono k t₁.store t₂.store a'
                        (valAt_pres_of_find_pres _ _ hfB) pa hra'
                    have hpresC : ∀ j x, t₂.store.valAt j = some x →
                        ((t₂.store.construct (Val.vpair a' b')).2).valAt j = some x :=
                      valAt_pres_of_find_pres _ _
                        (fun j x hx => find_construct_pres t₂.store _ j x hwfB hx)
                    have hraF := readBlock_mono k t₂.store _ a' hpresC pa hra₂
                    have hrbF := readBlock_mono k t₂.store _ b' hpresC pb hrb'
                    have hvi : ((t₂.store.construct (Val.vpair a' b')).2).valAt
                        t₂.store.nextId = some (Val.vpair a' b') := by
                      unfold Store.valAt
                      rw [Store.find_construct]
                      simp
                    have hc1 : (t₂.store.construct (Val.vpair a' b')).1
                        = t₂.store.nextId := rfl
                    rw [readBlock_eq, hc1, hvi, Option.some_bind',
                      readVal_succ_pair, hraF, Option.some_bind', hrbF,
                      Option.some_bind']

end Kuzco

namespace Kuzco

/-- Copy construction of a member never touches the registry or the depth
counter, in either mode. -/
theorem memberCopy_frame : ∀ (fuel : Nat) (s : KState) (src i : Nat) (s' : KState),
    memberCopy fuel s src = some (i, s') →
    s'.openEdits = s.openEdits ∧ s'.depth = s.depth := by
  intro fuel
  induction fuel with
  | zero => intro s src i s' h; simp [memberCopy] at h
  | succ fuel ih =>
    intro s src i s' h
    cases hdeep : s.deep with
    | false =>
      rw [memberCopy_shallow fuel s src hdeep, Option.some.injEq,
        Prod.mk.injEq] at h
      obtain ⟨-, hs'⟩ := h
      subst hs'
      exact ⟨rfl, rfl⟩
    | true =>
      rw [memberCopy_succ_deep fuel s src hdeep] at h
      cases hfind : s.store.find src with
      | none => rw [hfind] at h; simp at h
      | some vr =>
        rw [hfind, Option.some_bind'] at h
        obtain ⟨v, rc⟩ := vr
        cases v with
        | vint n =>
          rw [show copyVal fuel s ((Val.vint n, rc).1) = some (Val.vint n, s)
              from rfl, Option.some_bind', Option.some.injEq, Prod.mk.injEq] at h
          obtain ⟨-, hs'⟩ := h
          subst hs'
          exact ⟨rfl, rfl⟩
        | vpair a b =>
          rw [show ((Val.vpair a b, rc).1) = Val.vpair a b from rfl,
            copyVal_pair] at h
          cases hma : memberCopy fuel s a with
          | none => rw [hma] at h; simp at h
          | some p₁ =>
            rw [hma, Option.some_bind'] at h
            cases hmb : memberCopy fuel p₁.2 b with
            | none => rw [hmb] at h; simp at h
            | some p₂ =>
              rw [hmb, Option.some_bind', Option.some_bind',
                Option.some.injEq, Prod.mk.injEq] at h
              obtain ⟨-, hs'⟩ := h
              subst hs'
              obtain ⟨hoA, hdA⟩ := ih s a p₁.1 p₁.2 hma
              obtain ⟨hoB, hdB⟩ := ih p₁.2 b p₂.1 p₂.2 hmb
              exact ⟨hoB.trans hoA, hdB.trans hdA⟩

/-- Non-const `get()` on a detached member returns the member's block with no
state change at all. -/
theorem memberGet_detached (k : Nat) (s : KState) (m : Nat)
    (h : s.detached m = true) : memberGet k s m = some (m, s) := by
  simp [memberGet, h]

/-- C1: during an active transaction, the first non-const `get()` on a shared
`Member` allocates exactly one fresh block holding a copy of the current
value, registers the new handle in the open-edits registry (marking the
member detached), and returns a pointer into the new block; every
subsequent non-const `get()` returns the same block with no further
allocation and no state change. -/
theorem memberGet_copies_once (fuel : Nat) (s : KState) (m : Nat) (v : Val)
    (rc : Nat) (htx : s.depth ≠ 0) (hshared : s.detached m = false)
    (hfind : s.store.find m = some (v, rc)) (hwf : s.store.WF) :
    ∃ s', memberGet (fuel + 1) s m = some (s.store.nextId, s')
      ∧ s.store.find s.store.nextId = none
      ∧ s'.store.nextId = s.store.nextId + 1
      ∧ s'.store.valAt s.store.nextId = some v
      ∧ s'.openEdits = s.openEdits ++ [s.store.nextId]
      ∧ s'.detached s.store.nextId = true
      ∧ ∀ k, memberGet k s' s.store.nextId = some (s.store.nextId, s') := by
  have hdeepf : s.deep = false := by
    unfold KState.detached at hshared
    exact (Bool.or_eq_false_iff.mp hshared).1
  obtain ⟨st', hcv, hnx, hval⟩ := copyVal_shallow fuel s v hdeepf
  have hm_lt : m < s.store.nextId := Store.lt_nextId_of_find _ m _ hwf hfind
  rw [← hnx]
  have hget : memberGet (fuel + 1) s m
      = some (KState.detachWith
          { store := (st'.construct v).2, depth := s.depth,
            openEdits := s.openEdits } m st'.nextId) := by
    simp [memberGet, hshared, hfind, hcv]
    rfl
  have hdet' : (KState.detachWith
      { store := (st'.construct v).2, depth := s.depth,
        openEdits := s.openEdits } m st'.nextId).2.detached st'.nextId
        = true := by
    simp [KState.detachWith, KState.openEdit, KState.detached, KState.isOpenEdit]
  refine ⟨_, hget, Store.find_eq_none_of_le _ _ hwf hnx.ge, ?_, ?_, rfl,
    hdet', ?_⟩
  · show (((st'.construct v).2.incref st'.nextId).decref m).nextId
        = st'.nextId + 1
    rfl
  · show (((st'.construct v).2.incref st'.nextId).decref m).valAt st'.nextId
        = some v
    rw [Store.valAt_decref, Store.valAt_incref]
    unfold Store.valAt
    rw [Store.find_construct]
    simp
  · intro k
    exact memberGet_detached k _ _ hdet'

/-- C1 witness: a concrete shared member written inside a transaction. -/
theorem memberGet_copies_once_witness :
    (1 : Nat) ≠ 0
    ∧ KState.detached ⟨⟨1, [(0, Val.vint 5, 1)]⟩, 1, []⟩ 0 = false
    ∧ (⟨⟨1, [(0, Val.vint 5, 1)]⟩, 1, []⟩ : KState).store.find 0
        = some (Val.vint 5, 1)
    ∧ Store.WF ⟨1, [(0, Val.vint 5, 1)]⟩
    ∧ ∃ s', memberGet 1 ⟨⟨1, [(0, Val.vint 5, 1)]⟩, 1, []⟩ 0 = some (1, s')
      ∧ Store.find ⟨1, [(0, Val.vint 5, 1)]⟩ 1 = none
      ∧ s'.store.nextId = 2
      ∧ s'.store.valAt 1 = some (Val.vint 5)
      ∧ s'.openEdits = [] ++ [1]
      ∧ s'.detached 1 = true
      ∧ ∀ k, memberGet k s' 1 = some (1, s') :=
  ⟨by decide, by decide, by decide, by decide,
    memberGet_copies_once 0 ⟨⟨1, [(0, Val.vint 5, 1)]⟩, 1, []⟩ 0 (Val.vint 5) 1
      (by decide) (by decide) (by decide) (by decide)⟩

end Kuzco

namespace Kuzco

/-- C2: copy-constructing a `Member` outside any active transaction (depth
counter zero) allocates an independent fresh block — the source block is
left entirely unchanged, the copy reads back as the same tree value, and
nothing is registered as detached — whereas copy-constructing inside an
active transaction (depth nonzero) returns the very same handle with its
reference count incremented, performs no allocation, and changes no
member's detached status. -/
theorem memberCopy_deep_shallow_rule (fuel : Nat) (s : KState) (src i : Nat)
    (s' : KState) (v : Val) (rc : Nat)
    (h : memberCopy (fuel + 1) s src = some (i, s'))
    (hfind : s.store.find src = some (v, rc)) (hwf : s.store.WF) :
    (s.depth = 0 →
      s.store.find i = none ∧ i ≠ src
      ∧ s.store.nextId < s'.store.nextId
      ∧ s'.store.find src = some (v, rc)
      ∧ s'.openEdits = s.openEdits
      ∧ ∀ k p, readBlock k s.store src = some p → readBlock k s'.store i = some p)
    ∧ (s.depth ≠ 0 →
      i = src
      ∧ s' = { s with store := s.store.incref src }
      ∧ s'.store.nextId = s.store.nextId
      ∧ s'.store.find src = some (v, rc + 1)
      ∧ s'.openEdits = s.openEdits
      ∧ ∀ j, s'.detached j = s.detached j) := by
  constructor
  · intro hd
    obtain ⟨-, ho, -, -, hf, hile, hlt, hread⟩ :=
      memberCopy_deep (fuel + 1) s src i s' hd hwf h
    have hsrc_lt : src < s.store.nextId := Store.lt_nextId_of_find _ src _ hwf hfind
    refine ⟨Store.find_eq_none_of_le _ _ hwf hile, ?_, ?_, hf src _ hfind, ho, hread⟩
    · exact fun he => absurd (he ▸ hile) (Nat.not_le.mpr hsrc_lt)
    · exact Nat.lt_of_lt_of_le (Nat.lt_of_le_of_lt hile hlt) (Nat.le_refl _)
  · intro hd
    have hdeepf : s.deep = false := by simp [KState.deep, hd]
    rw [memberCopy_shallow fuel s src hdeepf, Option.some.injEq,
      Prod.mk.injEq] at h
    obtain ⟨hi, hs'⟩ := h
    subst hi; subst hs'
    refine ⟨rfl, rfl, rfl, ?_, rfl, fun j => rfl⟩
    rw [Store.find_incref, hfind]
    simp

/-- C2 witness: a shallow (in-transaction) copy at a concrete state. -/
theorem memberCopy_deep_shallow_rule_witness :
    memberCopy 1 ⟨⟨1, [(0, Val.vint 4, 1)]⟩, 1, []⟩ 0
      = some (0, ⟨⟨1, [(0, Val.vint 4, 2)]⟩, 1, []⟩)
    ∧ Store.find ⟨1, [(0, Val.vint 4, 1)]⟩ 0 = some (Val.vint 4, 1)
    ∧ Store.WF ⟨1, [(0, Val.vint 4, 1)]⟩
    ∧ ((1 : Nat) ≠ 0 →
        (0 : Nat) = 0
        ∧ (⟨⟨1, [(0, Val.vint 4, 2)]⟩, 1, []⟩ : KState)
            = { (⟨⟨1, [(0, Val.vint 4, 1)]⟩, 1, []⟩ : KState) with
                store := Store.incref ⟨1, [(0, Val.vint 4, 1)]⟩ 0 }
        ∧ (1 : Nat) = 1
        ∧ Store.find ⟨1, [(0, Val.vint 4, 2)]⟩ 0 = some (Val.vint 4, 1 + 1)
        ∧ ([] : List Nat) = []
        ∧ ∀ j, KState.detached ⟨⟨1, [(0, Val.vint 4, 2)]⟩, 1, []⟩ j
            = KState.detached ⟨⟨1, [(0, Val.vint 4, 1)]⟩, 1, []⟩ j) :=
  ⟨by decide, by decide, by decide,
    (memberCopy_deep_shallow_rule 0 ⟨⟨1, [(0, Val.vint 4, 1)]⟩, 1, []⟩ 0 0
      ⟨⟨1, [(0, Val.vint 4, 2)]⟩, 1, []⟩ (Val.vint 4) 1
      (by decide) (by decide) (by decide)).2⟩

end Kuzco

namespace Kuzco

/-- C4: `beginTransaction` increments the transaction-depth counter and
unconditionally detaches the root: it allocates a fresh block holding a
copy of the root's current value (the value itself is copied under the
shallow rule, so it is the same `Val`), registers that new handle as the
first entry of the (previously empty) open-edits registry, and returns a
pointer into the newly allocated block — never into the previously
committed block. -/
theorem beginTransaction_spec (fuel : Nat) (s : KState) (r : RootData)
    (v w : Val) (rc rcw : Nat)
    (hroot : s.store.find r.rootData = some (v, rc))
    (hcommitted : s.store.find r.detachedRoot = some (w, rcw))
    (hidle : s.openEdits = []) (hwf : s.store.WF) :
    ∃ s', beginTransaction (fuel + 1) s r
        = some (s.store.nextId, ⟨s.store.nextId, r.detachedRoot⟩, s')
      ∧ s'.depth = s.depth + 1
      ∧ s'.openEdits = [s.store.nextId]
      ∧ s.store.find s.store.nextId = none
      ∧ s'.store.valAt s.store.nextId = some v
      ∧ s.store.nextId ≠ r.detachedRoot := by
  have hroot_lt : r.rootData < s.store.nextId :=
    Store.lt_nextId_of_find _ _ _ hwf hroot
  have hcom_lt : r.detachedRoot < s.store.nextId :=
    Store.lt_nextId_of_find _ _ _ hwf hcommitted
  have hdeepf : ({ s with depth := s.depth + 1 } : KState).deep = false := by
    simp [KState.deep]
  obtain ⟨st', hcv, hnx, hval⟩ :=
    copyVal_shallow fuel { s with depth := s.depth + 1 } v hdeepf
  rw [← hnx]
  have hbt : beginTransaction (fuel + 1) s r
      = some (st'.nextId, ⟨st'.nextId, r.detachedRoot⟩,
          (KState.detachWith
            { store := (st'.construct v).2, depth := s.depth + 1,
              openEdits := s.openEdits } r.rootData st'.nextId).2) := by
    simp [beginTransaction, hroot, hcv]
    exact ⟨rfl, rfl⟩
  refine ⟨_, hbt, rfl, ?_, Store.find_eq_none_of_le _ _ hwf hnx.ge, ?_, ?_⟩
  · show s.openEdits ++ [st'.nextId] = [st'.nextId]
    rw [hidle]
    rfl
  · show (((st'.construct v).2.incref st'.nextId).decref r.rootData).valAt
        st'.nextId = some v
    rw [Store.valAt_decref, Store.valAt_incref]
    unfold Store.valAt
    rw [Store.find_construct]
    simp
  · exact fun he => absurd (he ▸ hcom_lt) (hnx ▸ Nat.lt_irrefl _)

/-- C4 witness: a concrete fresh root with an empty registry. -/
theorem beginTransaction_spec_witness :
    Store.find ⟨1, [(0, Val.vint 3, 2)]⟩ 0 = some (Val.vint 3, 2)
    ∧ ([] : List Nat) = []
    ∧ Store.WF ⟨1, [(0, Val.vint 3, 2)]⟩
    ∧ ∃ s', beginTransaction 1 ⟨⟨1, [(0, Val.vint 3, 2)]⟩, 0, []⟩ ⟨0, 0⟩
        = some (1, ⟨1, 0⟩, s')
      ∧ s'.depth = 0 + 1
      ∧ s'.openEdits = [1]
      ∧ Store.find ⟨1, [(0, Val.vint 3, 2)]⟩ 1 = none
      ∧ s'.store.valAt 1 = some (Val.vint 3)
      ∧ (1 : Nat) ≠ 0 :=
  ⟨by decide, rfl, by decide,
    beginTransaction_spec 0 ⟨⟨1, [(0, Val.vint 3, 2)]⟩, 0, []⟩ ⟨0, 0⟩
      (Val.vint 3) (Val.vint 3) 2 2 (by decide) (by decide) rfl (by decide)⟩

end Kuzco


namespace Kuzco

/-- C5: the concrete sibling-sharing scenario.  Building `{a: va, b: vb}`
gives leaf blocks 0 and 1 and committed root block 2; after one
transaction that writes only `a` (to `w`), the new committed snapshot is
block 3 whose value `vpair 4 1` holds a fresh block 4 for `a` but the
identical block 1 for the untouched sibling `b` that the prior committed
snapshot (block 2, value `vpair 0 1`) also references; the snapshot
accessor reads back the mutated tree value `{w, vb}`, and block 1 still
holds `vb` with its value untouched. -/
theorem scenario_sibling_sharing (va vb w : Int) :
    (scenarioTx va vb w).map Prod.fst = some ⟨3, 3⟩
    ∧ (scenarioTx va vb w).bind (fun p =>
        readBlock 2 ((detachedPayload p.2 p.1).2).store (detachedPayload p.2 p.1).1)
      = some (PVal.ppair (PVal.pint w) (PVal.pint vb))
    ∧ (scenarioTx va vb w).bind (fun p => p.2.store.valAt p.1.detachedRoot)
      = some (Val.vpair 4 1)
    ∧ (scenarioRoot va vb).2.store.valAt (scenarioRoot va vb).1.detachedRoot
      = some (Val.vpair 0 1)
    ∧ (scenarioTx va vb w).bind (fun p => p.2.store.find 1)
      = some (Val.vint vb, 2) := by
  have h2 : scenarioRoot va vb
      = (⟨2, 2⟩, ⟨⟨3, [(2, Val.vpair 0 1, 2), (1, Val.vint vb, 1),
          (0, Val.vint va, 1)]⟩, 0, []⟩) := rfl
  have h3 : beginTransaction 4
      (⟨⟨3, [(2, Val.vpair 0 1, 2), (1, Val.vint vb, 1),
        (0, Val.vint va, 1)]⟩, 0, []⟩ : KState) ⟨2, 2⟩
      = some (3, ⟨3, 2⟩, ⟨⟨4, [(3, Val.vpair 0 1, 2), (2, Val.vpair 0 1, 1),
          (1, Val.vint vb, 2), (0, Val.vint va, 2)]⟩, 1, [3]⟩) := rfl
  have h4 : scenarioMutate w
      (3, ⟨3, 2⟩, ⟨⟨4, [(3, Val.vpair 0 1, 2), (2, Val.vpair 0 1, 1),
        (1, Val.vint vb, 2), (0, Val.vint va, 2)]⟩, 1, [3]⟩)
      = some (⟨3, 3⟩, ⟨⟨5, [(4, Val.vint w, 1), (3, Val.vpair 4 1, 2),
          (2, Val.vpair 0 1, 0), (1, Val.vint vb, 2),
          (0, Val.vint va, 1)]⟩, 0, []⟩) := rfl
  have hTx : scenarioTx va vb w
      = some (⟨3, 3⟩, ⟨⟨5, [(4, Val.vint w, 1), (3, Val.vpair 4 1, 2),
          (2, Val.vpair 0 1, 0), (1, Val.vint vb, 2),
          (0, Val.vint va, 1)]⟩, 0, []⟩) := by
    unfold scenarioTx
    rw [h2]
    show (beginTransaction 4
      (⟨⟨3, [(2, Val.vpair 0 1, 2), (1, Val.vint vb, 1),
        (0, Val.vint va, 1)]⟩, 0, []⟩ : KState) ⟨2, 2⟩).bind (scenarioMutate w) = _
    rw [h3]
    exact h4
  refine ⟨?_, ?_, ?_, ?_, ?_⟩
  · rw [hTx]; rfl
  · rw [hTx]; rfl
  · rw [hTx]; rfl
  · rw [h2]; rfl
  · rw [hTx]; rfl

end Kuzco

namespace Kuzco

/-- C7 counterexample: a `Member` constructed from arguments inside an active
transaction (trace `cexFreshInTx`: fresh member is block 2, transaction
depth 1, registry `[1]`) is NOT detached — its fresh block is not in the
open-edits registry — and its first non-const `get()` does not return a
pointer into the same block: it performs one copy-on-write allocation and
returns the new block 3. -/
theorem memberNew_get_in_tx_allocates :
    (cexFreshInTx.map (fun p => p.1)) = some 2
    ∧ (cexFreshInTx.map (fun p => KState.detached p.2 p.1)) = some false
    ∧ (cexFreshInTx.map (fun p => p.2.store.nextId)) = some 3
    ∧ (cexFreshInTx.bind (fun p => memberGet 4 p.2 p.1)).map
        (fun q => (q.1, q.2.store.nextId)) = some (3, 4) := by
  refine ⟨rfl, rfl, rfl, rfl⟩

/-- C7 (amended): constructing a `Member` directly from constructor arguments
always allocates a fresh block with reference count 1 and leaves the
registry untouched; outside any active transaction the member is
implicitly detached (the deep rule), so mutable `get()` returns a pointer
into that same block with no further allocation and no state change.
Inside an active transaction, however, the fresh block is not in the
open-edits registry, so the first mutable `get()` performs one
copy-on-write allocation (see the counterexample). -/
theorem memberNew_fresh_deep_get (s : KState) (v : Val) (hwf : s.store.WF) :
    (memberNew s v).1 = s.store.nextId
    ∧ s.store.find s.store.nextId = none
    ∧ (memberNew s v).2.store.find s.store.nextId = some (v, 1)
    ∧ (memberNew s v).2.store.nextId = s.store.nextId + 1
    ∧ (memberNew s v).2.openEdits = s.openEdits
    ∧ (s.depth = 0 → ∀ k,
        memberGet k (memberNew s v).2 (memberNew s v).1
          = some ((memberNew s v).1, (memberNew s v).2)) := by
  refine ⟨rfl, Store.find_eq_none_of_le _ _ hwf (Nat.le_refl _), ?_, rfl, rfl, ?_⟩
  · show ((s.store.construct v).2).find s.store.nextId = some (v, 1)
    rw [Store.find_construct]
    simp
  · intro hd k
    apply memberGet_detached
    have hdd : (memberNew s v).2.depth = 0 := hd
    simp [KState.detached, KState.deep, hdd]

/-- C7 witness: constructing and writing a fresh member with no transaction
active. -/
theorem memberNew_fresh_deep_get_witness :
    Store.WF ⟨1, [(0, Val.vint 9, 1)]⟩
    ∧ ((memberNew ⟨⟨1, [(0, Val.vint 9, 1)]⟩, 0, []⟩ (Val.vint 7)).1 = 1
      ∧ Store.find ⟨1, [(0, Val.vint 9, 1)]⟩ 1 = none
      ∧ (memberNew ⟨⟨1, [(0, Val.vint 9, 1)]⟩, 0, []⟩ (Val.vint 7)).2.store.find 1
          = some (Val.vint 7, 1)
      ∧ (memberNew ⟨⟨1, [(0, Val.vint 9, 1)]⟩, 0, []⟩ (Val.vint 7)).2.store.nextId = 2
      ∧ (memberNew ⟨⟨1, [(0, Val.vint 9, 1)]⟩, 0, []⟩ (Val.vint 7)).2.openEdits = []
      ∧ ((0 : Nat) = 0 → ∀ k,
          memberGet k (memberNew ⟨⟨1, [(0, Val.vint 9, 1)]⟩, 0, []⟩ (Val.vint 7)).2
              (memberNew ⟨⟨1, [(0, Val.vint 9, 1)]⟩, 0, []⟩ (Val.vint 7)).1
            = some ((memberNew ⟨⟨1, [(0, Val.vint 9, 1)]⟩, 0, []⟩ (Val.vint 7)).1,
                (memberNew ⟨⟨1, [(0, Val.vint 9, 1)]⟩, 0, []⟩ (Val.vint 7)).2))) :=
  ⟨by decide,
    memberNew_fresh_deep_get ⟨⟨1, [(0, Val.vint 9, 1)]⟩, 0, []⟩ (Val.vint 7)
      (by decide)⟩

/-- C8: constructing a `RootObject` from a `NewObject` holding value `v` and
immediately calling the lock-free snapshot accessor, with no transaction
in between, yields the very same block and the same tree value. -/
theorem roundTrip (s : KState) (v : Val) (k : Nat) (p : PVal)
    (hwf : s.store.WF) (hread : readVal k s.store v = some p) :
    (detachedPayload (rootNew (newObject s v).2 (newObject s v).1).2
        (rootNew (newObject s v).2 (newObject s v).1).1).1
      = (newObject s v).1
    ∧ readBlock k
        ((detachedPayload (rootNew (newObject s v).2 (newObject s v).1).2
          (rootNew (newObject s v).2 (newObject s v).1).1).2).store
        (newObject s v).1
      = some p := by
  refine ⟨rfl, ?_⟩
  have hmono : ∀ j x, s.store.valAt j = some x →
      ((s.store.construct v).2).valAt j = some x :=
    valAt_pres_of_find_pres _ _
      (fun j x hx => find_construct_pres s.store v j x hwf hx)
  have hval : ∀ j,
      ((((s.store.construct v).2.incref s.store.nextId).incref
          s.store.nextId)).valAt j = ((s.store.construct v).2).valAt j := by
    intro j
    rw [Store.valAt_incref, Store.valAt_incref]
  have hvv : ((s.store.construct v).2).valAt s.store.nextId = some v := by
    unfold Store.valAt
    rw [Store.find_construct]
    simp
  show readBlock k
      (((s.store.construct v).2.incref s.store.nextId).incref s.store.nextId)
      s.store.nextId = some p
  rw [readBlock_eq]
  rw [hval s.store.nextId, hvv, Option.some_bind']
  rw [readVal_congr k _ _ hval v]
  exact readVal_mono k s.store _ hmono v p hread

/-- C8 witness: round trip of the value 5 from the empty heap. -/
theorem roundTrip_witness :
    Store.WF (⟨0, []⟩ : Store)
    ∧ readVal 0 (⟨0, []⟩ : Store) (Val.vint 5) = some (PVal.pint 5)
    ∧ (detachedPayload
        (rootNew (newObject emptyState (Val.vint 5)).2
          (newObject emptyState (Val.vint 5)).1).2
        (rootNew (newObject emptyState (Val.vint 5)).2
          (newObject emptyState (Val.vint 5)).1).1).1
      = (newObject emptyState (Val.vint 5)).1
    ∧ readBlock 0
        ((detachedPayload
          (rootNew (newObject emptyState (Val.vint 5)).2
            (newObject emptyState (Val.vint 5)).1).2
          (rootNew (newObject emptyState (Val.vint 5)).2
            (newObject emptyState (Val.vint 5)).1).1).2).store
        (newObject emptyState (Val.vint 5)).1
      = some (PVal.pint 5) :=
  ⟨by decide, by decide,
    roundTrip emptyState (Val.vint 5) 0 (PVal.pint 5) (by decide) (by decide)⟩

end Kuzco

namespace Kuzco

/-- Unfolding of `memberAssignFrom` in the detached branch, in explicit
`Option.bind` form; the inline value-assignment match is `assignVal`. -/
theorem memberAssignFrom_succ_detached (fuel : Nat) (s : KState)
    (tgt src : Nat) (hdet : s.detached tgt = true) :
    memberAssignFrom (fuel + 1) s tgt src
      = (s.store.find src).bind (fun svr =>
          (s.store.find tgt).bind (fun tvr =>
            (assignVal fuel s tvr.1 svr.1).bind (fun r =>
              some (tgt, { r.2 with store := r.2.store.setVal tgt r.1 })))) := by
  cases hfs : s.store.find src with
  | none => simp [memberAssignFrom, hfs]
  | some svr =>
    cases hft : s.store.find tgt with
    | none => simp [memberAssignFrom, hfs, hdet, hft]
    | some tvr =>
      obtain ⟨tv, rct⟩ := tvr
      obtain ⟨sv, rcs⟩ := svr
      cases tv <;> cases sv <;>
        simp [memberAssignFrom, assignVal, hfs, hdet, hft]

/-- Unfolding of `memberAssignFrom` in the shared branch, in explicit
`Option.bind` form; the copy of the source value is `copyVal`. -/
theorem memberAssignFrom_succ_shared (fuel : Nat) (s : KState)
    (tgt src : Nat) (hdet : s.detached tgt = false) :
    memberAssignFrom (fuel + 1) s tgt src
      = (s.store.find src).bind (fun svr =>
          (copyVal fuel s svr.1).bind (fun r =>
            some (KState.detachWith
              { r.2 with store := (r.2.store.construct r.1).2 } tgt
              (r.2.store.construct r.1).1))) := by
  cases hfs : s.store.find src with
  | none => simp [memberAssignFrom, hfs]
  | some svr =>
    obtain ⟨sv, rcs⟩ := svr
    cases sv <;> simp [memberAssignFrom, copyVal, hfs, hdet]

/-- Unfolding of `memberAssignU` in the detached branch. -/
theorem memberAssignU_detached_eq (fuel : Nat) (s : KState) (tgt : Nat)
    (u : Val) (hdet : s.detached tgt = true) :
    memberAssignU fuel s tgt u
      = (s.store.find tgt).bind (fun tvr =>
          (assignVal fuel s tvr.1 u).bind (fun r =>
            some (tgt, { r.2 with store := r.2.store.setVal tgt r.1 }))) := by
  cases hft : s.store.find tgt with
  | none => simp [memberAssignU, hdet, hft]
  | some tvr =>
    cases hav : assignVal fuel s tvr.1 u with
    | none => simp [memberAssignU, hdet, hft, hav]
    | some r => simp [memberAssignU, hdet, hft, hav]

/-- Unfolding of `memberAssignU` in the shared branch. -/
theorem memberAssignU_shared_eq (fuel : Nat) (s : KState) (tgt : Nat)
    (u : Val) (hdet : s.detached tgt = false) :
    memberAssignU fuel s tgt u
      = (copyVal fuel s u).bind (fun r =>
          some (KState.detachWith
            { r.2 with store := (r.2.store.construct r.1).2 } tgt
            (r.2.store.construct r.1).1)) := by
  cases hcv : copyVal fuel s u with
  | none => simp [memberAssignU, hdet, hcv]
  | some r => simp [memberAssignU, hdet, hcv]

/-- C3 counterexample: in the trace `cexDetachedNested` the target member
(block 9) is detached — its block is in the open-edits registry — yet copy
assignment from the source member (block 7, a struct value whose fields
alias shared blocks) performs two fresh allocations (`nextId` goes from 10
to 12), because the in-place value assignment runs the member fields' own
copy-assignment operators and those fields are still shared.  This refutes
"copies the source's value into the target's existing block in place with
no new allocation". -/
theorem memberAssignFrom_detached_allocates :
    (cexDetachedNested.map (fun p => KState.detached p.2.2 p.1)) = some true
    ∧ (cexDetachedNested.map (fun p => p.2.2.store.nextId)) = some 10
    ∧ (cexDetachedNested.bind (fun p => memberAssignFrom 8 p.2.2 p.1 p.2.1)).map
        (fun q => (q.1, q.2.store.nextId)) = some (9, 12) := by
  refine ⟨rfl, rfl, rfl⟩

/-- C10 counterexample: in the same trace, direct value assignment of the
struct value `vpair 5 6` to the detached member (block 9) through
`operator=(U&&)` also performs two fresh allocations (`nextId` 10 to 12):
the in-place branch runs the member fields' own assignment protocol, and
the fields are shared.  This refutes "u is assigned into the existing
block in place with no allocation". -/
theorem memberAssignU_detached_allocates :
    (cexDetachedNested.map (fun p => KState.detached p.2.2 p.1)) = some true
    ∧ (cexDetachedNested.map (fun p => p.2.2.store.nextId)) = some 10
    ∧ (cexDetachedNested.bind (fun p => memberAssignU 8 p.2.2 p.1 (Val.vpair 5 6))).map
        (fun q => (q.1, q.2.store.nextId)) = some (9, 12) := by
  refine ⟨rfl, rfl, rfl⟩

end Kuzco

namespace Kuzco

/-- C3 (amended): copy assignment with a detached target mutates in place —
the target's handle is unchanged (the returned data is the target's
existing block) and, when the value type is a scalar, the source's value
is copied into the target's block with no allocation at all; member
fields inside a struct value follow their own copy-assignment protocol
and may allocate (see the counterexample).  With a shared target, a fresh
block holding a copy of the source's value is allocated and registered
(the target is detached with the new handle), the old block keeps its
value for every other aliaser, and — for a scalar source value — its
reference count is only decremented, every other block being left
entirely unchanged. -/
theorem memberAssignFrom_detach_protocol (fuel : Nat) (s : KState)
    (tgt src : Nat) (tv sv : Val) (rct rcs : Nat)
    (hft : s.store.find tgt = some (tv, rct))
    (hfs : s.store.find src = some (sv, rcs))
    (hwf : s.store.WF) :
    (s.detached tgt = true →
      (∀ i s', memberAssignFrom (fuel + 2) s tgt src = some (i, s') → i = tgt)
      ∧ ∀ tn sn, tv = Val.vint tn → sv = Val.vint sn →
          memberAssignFrom (fuel + 2) s tgt src
            = some (tgt, { s with store := s.store.setVal tgt (Val.vint sn) }))
    ∧ (s.detached tgt = false →
      ∃ s', memberAssignFrom (fuel + 2) s tgt src = some (s.store.nextId, s')
        ∧ s.store.find s.store.nextId = none
        ∧ s'.store.nextId = s.store.nextId + 1
        ∧ s'.store.valAt s.store.nextId = some sv
        ∧ s'.openEdits = s.openEdits ++ [s.store.nextId]
        ∧ s'.store.valAt tgt = some tv
        ∧ ∀ n, sv = Val.vint n →
            s'.store.find tgt = some (tv, rct - 1)
            ∧ ∀ j, j ≠ tgt → j ≠ s.store.nextId →
                s'.store.find j = s.store.find j) := by
  have htgt_lt : tgt < s.store.nextId := Store.lt_nextId_of_find _ _ _ hwf hft
  constructor
  · intro hdet
    rw [memberAssignFrom_succ_detached (fuel + 1) s tgt src hdet, hfs,
      Option.some_bind', hft, Option.some_bind']
    constructor
    · intro i s' h
      cases hav : assignVal (fuel + 1) s tv sv with
      | none => rw [hav] at h; simp at h
      | some r =>
        rw [hav, Option.some_bind', Option.some.injEq, Prod.mk.injEq] at h
        exact h.1.symm
    · intro tn sn htn hsn
      subst htn; subst hsn
      rw [show assignVal (fuel + 1) s (Val.vint tn) (Val.vint sn)
          = some (Val.vint sn, s) from rfl, Option.some_bind']
  · intro hdet
    have hdeepf : s.deep = false := by
      unfold KState.detached at hdet
      exact (Bool.or_eq_false_iff.mp hdet).1
    obtain ⟨st', hcv, hnx, hval⟩ := copyVal_shallow fuel s sv hdeepf
    rw [← hnx]
    rw [memberAssignFrom_succ_shared (fuel + 1) s tgt src hdet, hfs,
      Option.some_bind', hcv, Option.some_bind']
    have htn : tgt ≠ st'.nextId := fun he =>
      absurd (he ▸ htgt_lt) (hnx ▸ Nat.lt_irrefl _)
    refine ⟨_, rfl, Store.find_eq_none_of_le _ _ hwf hnx.ge, rfl, ?_, rfl, ?_, ?_⟩
    · show (((st'.construct sv).2.incref st'.nextId).decref tgt).valAt
          st'.nextId = some sv
      rw [Store.valAt_decref, Store.valAt_incref]
      unfold Store.valAt
      rw [Store.find_construct]
      simp
    · show (((st'.construct sv).2.incref st'.nextId).decref tgt).valAt tgt
          = some tv
      rw [Store.valAt_decref, Store.valAt_incref]
      have hcon : ((st'.construct sv).2).valAt tgt = st'.valAt tgt := by
        unfold Store.valAt
        rw [Store.find_construct, if_neg htn]
      rw [hcon, hval tgt]
      unfold Store.valAt
      rw [hft]
      rfl
    · intro n hsvn
      subst hsvn
      have hst : ({ s with store := st' } : KState) = s := by
        have h1 : copyVal (fuel + 1) s (Val.vint n) = some (Val.vint n, s) := rfl
        rw [h1, Option.some.injEq, Prod.mk.injEq] at hcv
        exact hcv.2.symm
      have hst' : st' = s.store := congrArg KState.store hst
      subst hst'
      constructor
      · show (((s.store.construct (Val.vint n)).2.incref
            s.store.nextId).decref tgt).find tgt = some (tv, rct - 1)
        rw [Store.find_decref, Store.find_incref, Store.find_construct,
          if_neg htn, hft]
        simp [htn]
      · intro j hjt hjn
        show (((s.store.construct (Val.vint n)).2.incref
            s.store.nextId).decref tgt).find j = s.store.find j
        rw [Store.find_decref, Store.find_incref, Store.find_construct,
          if_neg hjn]
        cases hfj : s.store.find j with
        | none => rfl
        | some y => simp [hjt, hjn]

end Kuzco

namespace Kuzco

/-- C3 witness: a concrete shared scalar target assigned inside a
transaction. -/
theorem memberAssignFrom_detach_protocol_witness :
    Store.find ⟨2, [(0, Val.vint 3, 1), (1, Val.vint 4, 1)]⟩ 0
      = some (Val.vint 3, 1)
    ∧ Store.find ⟨2, [(0, Val.vint 3, 1), (1, Val.vint 4, 1)]⟩ 1
      = some (Val.vint 4, 1)
    ∧ Store.WF ⟨2, [(0, Val.vint 3, 1), (1, Val.vint 4, 1)]⟩
    ∧ ((KState.detached ⟨⟨2, [(0, Val.vint 3, 1), (1, Val.vint 4, 1)]⟩, 1, []⟩ 0
          = true →
        (∀ i s', memberAssignFrom 2
            ⟨⟨2, [(0, Val.vint 3, 1), (1, Val.vint 4, 1)]⟩, 1, []⟩ 0 1
            = some (i, s') → i = 0)
        ∧ ∀ tn sn, Val.vint 3 = Val.vint tn → Val.vint 4 = Val.vint sn →
            memberAssignFrom 2
              ⟨⟨2, [(0, Val.vint 3, 1), (1, Val.vint 4, 1)]⟩, 1, []⟩ 0 1
              = some (0, { (⟨⟨2, [(0, Val.vint 3, 1), (1, Val.vint 4, 1)]⟩, 1,
                  []⟩ : KState) with
                  store := Store.setVal
                    ⟨2, [(0, Val.vint 3, 1), (1, Val.vint 4, 1)]⟩ 0
                    (Val.vint sn) }))
      ∧ (KState.detached ⟨⟨2, [(0, Val.vint 3, 1), (1, Val.vint 4, 1)]⟩, 1, []⟩ 0
          = false →
        ∃ s', memberAssignFrom 2
            ⟨⟨2, [(0, Val.vint 3, 1), (1, Val.vint 4, 1)]⟩, 1, []⟩ 0 1
            = some (2, s')
          ∧ Store.find ⟨2, [(0, Val.vint 3, 1), (1, Val.vint 4, 1)]⟩ 2 = none
          ∧ s'.store.nextId = 2 + 1
          ∧ s'.store.valAt 2 = some (Val.vint 4)
          ∧ s'.openEdits = [] ++ [2]
          ∧ s'.store.valAt 0 = some (Val.vint 3)
          ∧ ∀ n, Val.vint 4 = Val.vint n →
              s'.store.find 0 = some (Val.vint 3, 1 - 1)
              ∧ ∀ j, j ≠ 0 → j ≠ 2 →
                  s'.store.find j
                    = Store.find ⟨2, [(0, Val.vint 3, 1), (1, Val.vint 4, 1)]⟩ j)) :=
  ⟨by decide, by decide, by decide,
    memberAssignFrom_detach_protocol 0
      ⟨⟨2, [(0, Val.vint 3, 1), (1, Val.vint 4, 1)]⟩, 1, []⟩ 0 1
      (Val.vint 3) (Val.vint 4) 1 1 (by decide) (by decide) (by decide)⟩

/-- C10 (amended): direct value assignment `member = u` follows the same
detach protocol as member-to-member copy assignment.  With a detached
target the member's handle is unchanged and, for scalar values, `u` is
assigned into the existing block with no allocation at all; member fields
inside a struct value follow their own assignment protocol and may
allocate (see the counterexample).  With a shared target, a fresh block
constructed from `u` is allocated and registered, the member is detached
with the new handle, the old block keeps its value, and — for a scalar
`u` — its reference count is only decremented, every other block being
left entirely unchanged. -/
theorem memberAssignU_detach_protocol (fuel : Nat) (s : KState) (tgt : Nat)
    (u tv : Val) (rct : Nat)
    (hft : s.store.find tgt = some (tv, rct)) (hwf : s.store.WF) :
    (s.detached tgt = true →
      (∀ i s', memberAssignU (fuel + 1) s tgt u = some (i, s') → i = tgt)
      ∧ ∀ tn n, tv = Val.vint tn → u = Val.vint n →
          memberAssignU (fuel + 1) s tgt u
            = some (tgt, { s with store := s.store.setVal tgt (Val.vint n) }))
    ∧ (s.detached tgt = false →
      ∃ s', memberAssignU (fuel + 1) s tgt u = some (s.store.nextId, s')
        ∧ s.store.find s.store.nextId = none
        ∧ s'.store.nextId = s.store.nextId + 1
        ∧ s'.store.valAt s.store.nextId = some u
        ∧ s'.openEdits = s.openEdits ++ [s.store.nextId]
        ∧ s'.store.valAt tgt = some tv
        ∧ ∀ n, u = Val.vint n →
            s'.store.find tgt = some (tv, rct - 1)
            ∧ ∀ j, j ≠ tgt → j ≠ s.store.nextId →
                s'.store.find j = s.store.find j) := by
  have htgt_lt : tgt < s.store.nextId := Store.lt_nextId_of_find _ _ _ hwf hft
  constructor
  · intro hdet
    rw [memberAssignU_detached_eq (fuel + 1) s tgt u hdet, hft,
      Option.some_bind']
    constructor
    · intro i s' h
      cases hav : assignVal (fuel + 1) s tv u with
      | none => rw [hav] at h; simp at h
      | some r =>
        rw [hav, Option.some_bind', Option.some.injEq, Prod.mk.injEq] at h
        exact h.1.symm
    · intro tn n htn hun
      subst htn; subst hun
      rw [show assignVal (fuel + 1) s (Val.vint tn) (Val.vint n)
          = some (Val.vint n, s) from rfl, Option.some_bind']
  · intro hdet
    have hdeepf : s.deep = false := by
      unfold KState.detached at hdet
      exact (Bool.or_eq_false_iff.mp hdet).1
    obtain ⟨st', hcv, hnx, hval⟩ := copyVal_shallow fuel s u hdeepf
    rw [← hnx]
    rw [memberAssignU_shared_eq (fuel + 1) s tgt u hdet, hcv,
      Option.some_bind']
    have htn : tgt ≠ st'.nextId := fun he =>
      absurd (he ▸ htgt_lt) (hnx ▸ Nat.lt_irrefl _)
    refine ⟨_, rfl, Store.find_eq_none_of_le _ _ hwf hnx.ge, rfl, ?_, rfl, ?_, ?_⟩
    · show (((st'.construct u).2.incref st'.nextId).decref tgt).valAt
          st'.nextId = some u
      rw [Store.valAt_decref, Store.valAt_incref]
      unfold Store.valAt
      rw [Store.find_construct]
      simp
    · show (((st'.construct u).2.incref st'.nextId).decref tgt).valAt tgt
          = some tv
      rw [Store.valAt_decref, Store.valAt_incref]
      have hcon : ((st'.construct u).2).valAt tgt = st'.valAt tgt := by
        unfold Store.valAt
        rw [Store.find_construct, if_neg htn]
      rw [hcon, hval tgt]
      unfold Store.valAt
      rw [hft]
      rfl
    · intro n hun
      subst hun
      have hst : ({ s with store := st' } : KState) = s := by
        have h1 : copyVal (fuel + 1) s (Val.vint n) = some (Val.vint n, s) := rfl
        rw [h1, Option.some.injEq, Prod.mk.injEq] at hcv
        exact hcv.2.symm
      have hst' : st' = s.store := congrArg KState.store hst
      subst hst'
      constructor
      · show (((s.store.construct (Val.vint n)).2.incref
            s.store.nextId).decref tgt).find tgt = some (tv, rct - 1)
        rw [Store.find_decref, Store.find_incref, Store.find_construct,
          if_neg htn, hft]
        simp [htn]
      · intro j hjt hjn
        show (((s.store.construct (Val.vint n)).2.incref
            s.store.nextId).decref tgt).find j = s.store.find j
        rw [Store.find_decref, Store.find_incref, Store.find_construct,
          if_neg hjn]
        cases hfj : s.store.find j with
        | none => rfl
        | some y => simp [hjt, hjn]

/-- C10 witness: a concrete shared scalar target assigned a raw value inside
a transaction. -/
theorem memberAssignU_detach_protocol_witness :
    Store.find ⟨1, [(0, Val.vint 3, 2)]⟩ 0 = some (Val.vint 3, 2)
    ∧ Store.WF ⟨1, [(0, Val.vint 3, 2)]⟩
    ∧ ((KState.detached ⟨⟨1, [(0, Val.vint 3, 2)]⟩, 1, []⟩ 0 = true →
        (∀ i s', memberAssignU 1 ⟨⟨1, [(0, Val.vint 3, 2)]⟩, 1, []⟩ 0
            (Val.vint 7) = some (i, s') → i = 0)
        ∧ ∀ tn n, Val.vint 3 = Val.vint tn → Val.vint 7 = Val.vint n →
            memberAssignU 1 ⟨⟨1, [(0, Val.vint 3, 2)]⟩, 1, []⟩ 0 (Val.vint 7)
              = some (0, { (⟨⟨1, [(0, Val.vint 3, 2)]⟩, 1, []⟩ : KState) with
                  store := Store.setVal ⟨1, [(0, Val.vint 3, 2)]⟩ 0
                    (Val.vint n) }))
      ∧ (KState.detached ⟨⟨1, [(0, Val.vint 3, 2)]⟩, 1, []⟩ 0 = false →
        ∃ s', memberAssignU 1 ⟨⟨1, [(0, Val.vint 3, 2)]⟩, 1, []⟩ 0 (Val.vint 7)
            = some (1, s')
          ∧ Store.find ⟨1, [(0, Val.vint 3, 2)]⟩ 1 = none
          ∧ s'.store.nextId = 1 + 1
          ∧ s'.store.valAt 1 = some (Val.vint 7)
          ∧ s'.openEdits = [] ++ [1]
          ∧ s'.store.valAt 0 = some (Val.vint 3)
          ∧ ∀ n, Val.vint 7 = Val.vint n →
              s'.store.find 0 = some (Val.vint 3, 2 - 1)
              ∧ ∀ j, j ≠ 0 → j ≠ 1 →
                  s'.store.find j = Store.find ⟨1, [(0, Val.vint 3, 2)]⟩ j)) :=
  ⟨by decide, by decide,
    memberAssignU_detach_protocol 0 ⟨⟨1, [(0, Val.vint 3, 2)]⟩, 1, []⟩ 0
      (Val.vint 7) (Val.vint 3) 2 (by decide) (by decide)⟩

end Kuzco

namespace Kuzco

/-- C9: every `endTransaction` clears the open-edits registry, and along any
trace of API steps from a freshly constructed root (whose registry is
empty), the registry is empty whenever the root is Idle (no open
transaction) — entries can only accumulate between a `beginTransaction`
and its matching `endTransaction`. -/
theorem openEdits_empty_when_idle :
    (∀ (s : KState) (r : RootData), ((endTransaction s r).2).openEdits = [])
    ∧ ∀ (s : KState) (objData : Nat) (c : Conf), s.openEdits = [] →
        Relation.ReflTransGen Step (initConf s objData) c →
        c.inTx = false → c.s.openEdits = [] := by
  constructor
  · intro s r
    rfl
  · intro s objData c hempty hreach
    induction hreach with
    | refl =>
      intro _
      exact hempty
    | tail _ hstep ih =>
      cases hstep with
      | beginTx fuel ptr r' s' h hb =>
        intro hfalse
        simp at hfalse
      | endTx h =>
        intro _
        rfl
      | mget fuel m i s' h hg =>
        intro hfalse
        simp at hfalse
      | massign fuel t src i s' h ha =>
        intro hfalse
        simp at hfalse
      | massignU fuel t i u s' h ha =>
        intro hfalse
        simp at hfalse
      | fieldWrite i v h =>
        intro hfalse
        simp at hfalse
      | mnew v =>
        intro hidle
        exact ih hidle
      | mcopy fuel src i s' hc =>
        intro hidle
        rw [(memberCopy_frame fuel _ src i s' hc).1]
        exact ih hidle

end Kuzco

namespace Kuzco

/-- C9 witness: two sequential transactions on a concrete root; after each
`endTransaction` the configuration is Idle and its registry is empty. -/
theorem openEdits_empty_when_idle_witness :
    ((endTransaction ⟨⟨0, []⟩, 1, [5, 6]⟩ ⟨0, 0⟩).2).openEdits = []
    ∧ (⟨⟨1, [(0, Val.vint 1, 1)]⟩, 0, []⟩ : KState).openEdits = []
    ∧ (⟨⟨⟨3, [(2, Val.vint 1, 2), (1, Val.vint 1, 0), (0, Val.vint 1, 0)]⟩,
        0, []⟩, ⟨2, 2⟩, false⟩ : Conf).inTx = false
    ∧ (⟨⟨⟨3, [(2, Val.vint 1, 2), (1, Val.vint 1, 0), (0, Val.vint 1, 0)]⟩,
        0, []⟩, ⟨2, 2⟩, false⟩ : Conf).s.openEdits = [] := by
  have s1 : Step (initConf ⟨⟨1, [(0, Val.vint 1, 1)]⟩, 0, []⟩ 0)
      ⟨⟨⟨2, [(1, Val.vint 1, 2), (0, Val.vint 1, 1)]⟩, 1, [1]⟩, ⟨1, 0⟩, true⟩ :=
    Step.beginTx _ 1 1 ⟨1, 0⟩
      ⟨⟨2, [(1, Val.vint 1, 2), (0, Val.vint 1, 1)]⟩, 1, [1]⟩
      (by decide) (by decide)
  have s2 : Step
      (⟨⟨⟨2, [(1, Val.vint 1, 2), (0, Val.vint 1, 1)]⟩, 1, [1]⟩, ⟨1, 0⟩,
        true⟩ : Conf)
      ⟨⟨⟨2, [(1, Val.vint 1, 2), (0, Val.vint 1, 0)]⟩, 0, []⟩, ⟨1, 1⟩,
        false⟩ :=
    Step.endTx _ (by decide)
  have s3 : Step
      (⟨⟨⟨2, [(1, Val.vint 1, 2), (0, Val.vint 1, 0)]⟩, 0, []⟩, ⟨1, 1⟩,
        false⟩ : Conf)
      ⟨⟨⟨3, [(2, Val.vint 1, 2), (1, Val.vint 1, 1), (0, Val.vint 1, 0)]⟩,
        1, [2]⟩, ⟨2, 1⟩, true⟩ :=
    Step.beginTx _ 1 2 ⟨2, 1⟩
      ⟨⟨3, [(2, Val.vint 1, 2), (1, Val.vint 1, 1), (0, Val.vint 1, 0)]⟩,
        1, [2]⟩ (by decide) (by decide)
  have s4 : Step
      (⟨⟨⟨3, [(2, Val.vint 1, 2), (1, Val.vint 1, 1), (0, Val.vint 1, 0)]⟩,
        1, [2]⟩, ⟨2, 1⟩, true⟩ : Conf)
      ⟨⟨⟨3, [(2, Val.vint 1, 2), (1, Val.vint 1, 0), (0, Val.vint 1, 0)]⟩,
        0, []⟩, ⟨2, 2⟩, false⟩ :=
    Step.endTx _ (by decide)
  have trace : Relation.ReflTransGen Step
      (initConf ⟨⟨1, [(0, Val.vint 1, 1)]⟩, 0, []⟩ 0)
      ⟨⟨⟨3, [(2, Val.vint 1, 2), (1, Val.vint 1, 0), (0, Val.vint 1, 0)]⟩,
        0, []⟩, ⟨2, 2⟩, false⟩ :=
    Relation.ReflTransGen.tail
      (Relation.ReflTransGen.tail
        (Relation.ReflTransGen.tail
          (Relation.ReflTransGen.tail Relation.ReflTransGen.refl s1) s2) s3) s4
  exact ⟨openEdits_empty_when_idle.1 ⟨⟨0, []⟩, 1, [5, 6]⟩ ⟨0, 0⟩, rfl, rfl,
    openEdits_empty_when_idle.2 ⟨⟨1, [(0, Val.vint 1, 1)]⟩, 0, []⟩ 0 _ rfl
      trace rfl⟩

end Kuzco
